import Mathlib

/-!
Verification development for the FBOSS L3 routing control-plane core:
the RIB/FIB pipeline reachable from `ThriftHandler.cpp`, the config
applier (`ConfigApplier.cpp`), and the Broadcom route/next-hop
programming layer (`BcmRoute.cpp`, `BcmMultiPathNextHop.cpp`).

Shallow embedding conventions: IP addresses are a family flag plus the
address value as an unsigned big-endian integer; the per-VRF RIB
candidate state is an association list keyed by (network, client);
fallible handlers return `Except`.
-/

namespace Fboss

/-- An IP address: family flag (`true` for IPv6) and the address value as
an unsigned big-endian integer, the order `folly::IPAddress` compares in. -/
structure IpAddr where
  isV6 : Bool
  val : Nat
deriving DecidableEq

/-- A network: address plus mask length (thrift `IpPrefix`). -/
structure Cidr where
  network : IpAddr
  mask : Nat
deriving DecidableEq

/-- `RouteForwardAction` from `fboss/agent/state/RouteTypes.h`. -/
inductive RouteForwardAction where
  | DROP
  | TO_CPU
  | NEXTHOPS
deriving DecidableEq

/-- A thrift `NextHopThrift`: address, optional interface scope, weight. -/
structure NextHopThrift where
  address : IpAddr
  intf : Option Nat
  weight : Nat
deriving DecidableEq

/-- A per-client candidate entry (`RouteNextHopEntry`): forward action,
next-hop set and admin distance. -/
structure RouteNextHopEntry where
  action : RouteForwardAction
  nexthops : List NextHopThrift
  adminDistance : Nat
deriving DecidableEq

/-- One client's candidate for one network, as stored in the RIB. -/
structure RibEntryRec where
  dest : Cidr
  client : Nat
  value : RouteNextHopEntry
deriving DecidableEq

/-- The per-VRF RIB candidate state: at most one entry per (network, client). -/
abbrev Rib := List RibEntryRec

/-- `RouteUpdater::addRoute`: insert or replace client `c`'s candidate for `p`. -/
def addRoute (rib : Rib) (p : Cidr) (c : Nat) (e : RouteNextHopEntry) : Rib :=
  ⟨p, c, e⟩ :: rib.filter (fun x => decide (¬(x.dest = p ∧ x.client = c)))

/-- `RouteUpdater::delRoute`: remove client `c`'s candidate for `p`. -/
def delRoute (rib : Rib) (p : Cidr) (c : Nat) : Rib :=
  rib.filter (fun x => decide (¬(x.dest = p ∧ x.client = c)))

/-- `RouteUpdater::removeAllRoutesForClient`: drop every candidate of `c`. -/
def removeAllRoutesForClient (c : Nat) (rib : Rib) : Rib :=
  rib.filter (fun x => decide (¬ x.client = c))

/-- The candidates a given client owns, in RIB order. -/
def forClient (c : Nat) (rib : Rib) : Rib :=
  rib.filter (fun x => decide (x.client = c))

/-- Exact-match lookup of one client's candidate. -/
def lookupRoute (rib : Rib) (p : Cidr) (c : Nat) : Option RouteNextHopEntry :=
  (rib.find? (fun x => decide (x.dest = p ∧ x.client = c))).map RibEntryRec.value

/-- Fold a list of items into the RIB as `addRoute` calls of one client,
with a key function `P` and an entry function `E`. -/
def addRoutesFold {σ : Type} (P : σ → Cidr) (c0 : Nat) (E : σ → RouteNextHopEntry)
    (l : List σ) (rib : Rib) : Rib :=
  l.foldl (fun r x => addRoute r (P x) c0 (E x)) rib

/-- Fold a list of networks into the RIB as `delRoute` calls of one client. -/
def delRoutesFold (c0 : Nat) (l : List Cidr) (rib : Rib) : Rib :=
  l.foldl (fun r p => delRoute r p c0) rib

/-- `util::thriftNextHopsFromAddresses`: wrap plain addresses as weight-0
next hops with no interface scope. -/
def thriftNextHopsFromAddresses (addrs : List IpAddr) : List NextHopThrift :=
  addrs.map (fun a => ⟨a, none, 0⟩)

/-- A thrift `UnicastRoute` as submitted through the route-update APIs. -/
structure UnicastRoute where
  dest : Cidr
  nextHops : List NextHopThrift
  nextHopAddrs : List IpAddr
  adminDistance : Option Nat
deriving DecidableEq

/-- The next-hop list `updateUnicastRoutesImpl` selects for a route: the
`nextHops` field, or `nextHopAddrs` converted when `nextHops` is empty. -/
def routeNhts (r : UnicastRoute) : List NextHopThrift :=
  if r.nextHops.isEmpty && !r.nextHopAddrs.isEmpty then
    thriftNextHopsFromAddresses r.nextHopAddrs
  else r.nextHops

/-- Modelled from the spec: `util::toRouteNextHopSet` (body outside these
sources) builds the unordered, deduplicated next-hop set; embedded as
duplicate removal keeping first occurrences. -/
def toRouteNextHopSet (nhts : List NextHopThrift) : List NextHopThrift :=
  nhts.foldl (fun acc nh => if nh ∈ acc then acc else acc ++ [nh]) []

/-- The candidate entry `updateUnicastRoutesImpl` installs for one route:
`NEXTHOPS` over the converted set when it is nonempty, otherwise a
blackhole `DROP` entry, at the route's admin distance (falling back to the
client's default). -/
def routeToEntry (clientAdmin : Nat) (r : UnicastRoute) : RouteNextHopEntry :=
  let ad := r.adminDistance.getD clientAdmin
  let nhs := toRouteNextHopSet (routeNhts r)
  if nhs.isEmpty then ⟨.DROP, [], ad⟩ else ⟨.NEXTHOPS, nhs, ad⟩

/-- The RIB candidate-state effect of `ThriftHandler::updateUnicastRoutesImpl`
for one VRF: when `sync`, first purge the client, then add every route. -/
def updateUnicastRoutesRib (client clientAdmin : Nat) (routes : List UnicastRoute)
    (sync : Bool) (rib : Rib) : Rib :=
  let rib1 := if sync then removeAllRoutesForClient client rib else rib
  addRoutesFold (fun rt => rt.dest) client (routeToEntry clientAdmin) routes rib1

/-- The RIB effect of `ThriftHandler::syncFib`: `updateUnicastRoutesImpl`
with `sync = true`. -/
def syncFibRib (client clientAdmin : Nat) (routes : List UnicastRoute) (rib : Rib) : Rib :=
  updateUnicastRoutesRib client clientAdmin routes true rib

/-- `RoutingInformationBase::update` (from
`fboss/agent/rib/RoutingInformationBase.cpp`), its candidate-state effect
on one VRF: if `resetClientsRoutes`, first remove all of the client's
candidates; then add every `toAdd` route, its candidate built by
`RouteNextHopEntry::from` at the route's or the client-default admin
distance (embedded as `routeToEntry`); then delete every `toDelete`
prefix. -/
def ribUpdate (client clientAdmin : Nat) (toAdd : List UnicastRoute)
    (toDelete : List Cidr) (resetClient : Bool) (rib : Rib) : Rib :=
  let rib1 := if resetClient then removeAllRoutesForClient client rib else rib
  let rib2 := addRoutesFold (fun rt => rt.dest) client (routeToEntry clientAdmin) toAdd rib1
  delRoutesFold client toDelete rib2

/-- The candidate set a route list induces for a client, starting from nothing. -/
def ribFromRoutes (client clientAdmin : Nat) (routes : List UnicastRoute) : Rib :=
  addRoutesFold (fun rt => rt.dest) client (routeToEntry clientAdmin) routes []

/-! ### Read APIs over the committed RIB (`getRouteTable` and friends) -/

/-- A committed RIB `Route` as the thrift read APIs see it: its network, its
resolution state, its forward info, and its per-client entries. -/
structure RibRouteEntry where
  dest : Cidr
  resolved : Bool
  fwd : RouteNextHopEntry
  clientEntries : List (Nat × RouteNextHopEntry)
deriving DecidableEq

/-- One `RouteTable`: its v4 and v6 RIBs. -/
structure RouteTableT where
  v4 : List RibRouteEntry
  v6 : List RibRouteEntry
deriving DecidableEq

/-- `Route::getEntryForClient`. -/
def getEntryForClient (c : Nat) (e : RibRouteEntry) : Option RouteNextHopEntry :=
  (e.clientEntries.find? (fun x => decide (x.1 = c))).map Prod.snd

/-- The thrift `UnicastRoute` shape the read APIs emit. -/
structure UnicastRouteOut where
  dest : Cidr
  nextHopAddrs : List IpAddr
  nextHops : List NextHopThrift
deriving DecidableEq

/-- `util::fromFwdNextHops`: the addresses of resolved next hops. -/
def fromFwdNextHops (nhs : List NextHopThrift) : List IpAddr :=
  nhs.map NextHopThrift.address

/-- The route `getRouteTable` emits for a resolved entry: its network and
the forward info's next hops. -/
def toUnicastRouteOut (e : RibRouteEntry) : UnicastRouteOut :=
  ⟨e.dest, fromFwdNextHops e.fwd.nexthops, e.fwd.nexthops⟩

/-- The route `getRouteTableByClient` emits for a client's entry. -/
def clientRouteOut (ent : RouteNextHopEntry) (e : RibRouteEntry) : UnicastRouteOut :=
  ⟨e.dest, ent.nexthops.map NextHopThrift.address, ent.nexthops⟩

/-- `ThriftHandler::getRouteTable`'s per-RIB loop: emit resolved routes,
skip (`continue` past) unresolved ones. -/
def emitResolved (l : List RibRouteEntry) : List UnicastRouteOut :=
  l.filterMap (fun e => if e.resolved then some (toUnicastRouteOut e) else none)

/-- `ThriftHandler::getRouteTable`: for every route table, the resolved v4
routes then the resolved v6 routes. -/
def getRouteTable (tables : List RouteTableT) : List UnicastRouteOut :=
  (tables.map (fun t => emitResolved t.v4 ++ emitResolved t.v6)).flatten

/-- `ThriftHandler::getRouteTableByClient`'s per-RIB loop: emit every route
holding an entry for the client, resolved or not. -/
def emitForClient (c : Nat) (l : List RibRouteEntry) : List UnicastRouteOut :=
  l.filterMap (fun e => (getEntryForClient c e).map (fun ent => clientRouteOut ent e))

/-- `ThriftHandler::getRouteTableByClient`. -/
def getRouteTableByClient (c : Nat) (tables : List RouteTableT) : List UnicastRouteOut :=
  (tables.map (fun t => emitForClient c t.v4 ++ emitForClient c t.v6)).flatten

/-- `Route::toRouteDetails`, reduced to the fields the detail query exposes
that matter here: network, resolution state and the per-client entries. -/
structure RouteDetailsT where
  dest : Cidr
  isResolved : Bool
  entries : List (Nat × RouteNextHopEntry)
deriving DecidableEq

/-- Detail record of one RIB route. -/
def toRouteDetails (e : RibRouteEntry) : RouteDetailsT :=
  ⟨e.dest, e.resolved, e.clientEntries⟩

/-- `ThriftHandler::getRouteTableDetails`: every route, unfiltered. -/
def getRouteTableDetails (tables : List RouteTableT) : List RouteDetailsT :=
  (tables.map (fun t => t.v4.map toRouteDetails ++ t.v6.map toRouteDetails)).flatten

/-- Membership of a RIB route in a route-table list. -/
def entryInTables (e : RibRouteEntry) (tables : List RouteTableT) : Prop :=
  ∃ t ∈ tables, e ∈ t.v4 ∨ e ∈ t.v6

/-! ### ConfigApplier (`ConfigApplier::updateRibAndFib`) -/

/-- `StdClientIds::BGPD`. -/
def stdBgpd : Nat := 0

/-- `StdClientIds::STATIC_ROUTE`. -/
def stdStaticRoute : Nat := 1

/-- `StdClientIds::INTERFACE_ROUTE`. -/
def stdInterfaceRoute : Nat := 2

/-- `StdClientIds::LINKLOCAL_ROUTE`. -/
def stdLinkLocal : Nat := 3

/-- Admin distance of config static routes (`AdminDistance::STATIC_ROUTE`). -/
def staticRouteAdminDistance : Nat := 1

/-- Admin distance of directly connected routes
(`AdminDistance::DIRECTLY_CONNECTED`). -/
def directlyConnectedAdminDistance : Nat := 0

/-- `RouteNextHopEntry::createToCpu()`. -/
def createToCpu : RouteNextHopEntry := ⟨.TO_CPU, [], staticRouteAdminDistance⟩

/-- `RouteNextHopEntry::createDrop()`. -/
def createDrop : RouteNextHopEntry := ⟨.DROP, [], staticRouteAdminDistance⟩

/-- A config static route without next hops (used for both the to-CPU and
the to-null lists). -/
structure StaticRouteNoNextHops where
  routerID : Nat
  network : Cidr
deriving DecidableEq

/-- A config static route with next hops. -/
structure StaticRouteWithNextHops where
  routerID : Nat
  network : Cidr
  nexthops : List NextHopThrift
deriving DecidableEq

/-- `RouteNextHopEntry::fromStaticRoute`. -/
def fromStaticRoute (s : StaticRouteWithNextHops) : RouteNextHopEntry :=
  ⟨.NEXTHOPS, s.nexthops, staticRouteAdminDistance⟩

/-- A directly connected route from config: network, owning interface id and
the interface's own address on that network. -/
structure DirectlyConnectedRoute where
  network : Cidr
  interfaceID : Nat
  endpoint : IpAddr
deriving DecidableEq

/-- Modelled from the spec: the candidate `RouteUpdater::addInterfaceRoute`
(body outside these sources) installs under the INTERFACE client for a
connected network. -/
def interfaceRouteEntry (d : DirectlyConnectedRoute) : RouteNextHopEntry :=
  ⟨.NEXTHOPS, [⟨d.endpoint, some d.interfaceID, 0⟩], directlyConnectedAdminDistance⟩

/-- `ConfigApplier::addInterfaceRoutes`: one `addInterfaceRoute` per
directly connected route. -/
def addInterfaceRoutes (l : List DirectlyConnectedRoute) (rib : Rib) : Rib :=
  addRoutesFold (fun d => d.network) stdInterfaceRoute interfaceRouteEntry l rib

/-- The fe80::/10 network. -/
def linkLocalV6 : Cidr := ⟨⟨true, 0xfe800000000000000000000000000000⟩, 10⟩

/-- The 169.254.0.0/16 network. -/
def linkLocalV4 : Cidr := ⟨⟨false, 0xa9fe0000⟩, 16⟩

/-- Admin distance of the seeded link-local routes. -/
def linkLocalAdminDistance : Nat := 0

/-- The TO_CPU candidate seeded for the link-local networks. -/
def linkLocalEntry : RouteNextHopEntry := ⟨.TO_CPU, [], linkLocalAdminDistance⟩

/-- Modelled from the spec: `RouteUpdater::addLinkLocalRoutes` (body outside
these sources) ensures fe80::/10 and 169.254.0.0/16 exist with TO_CPU under
the LINK_LOCAL client. -/
def addLinkLocalRoutes (rib : Rib) : Rib :=
  addRoute (addRoute rib linkLocalV6 stdLinkLocal linkLocalEntry)
    linkLocalV4 stdLinkLocal linkLocalEntry

/-- The per-VRF inputs `ConfigApplier` is constructed with. -/
structure ConfigApplierInput where
  vrf : Nat
  directlyConnected : List DirectlyConnectedRoute
  staticCpuRoutes : List StaticRouteNoNextHops
  staticDropRoutes : List StaticRouteNoNextHops
  staticRoutes : List StaticRouteWithNextHops
deriving DecidableEq

/-- The three static-route add loops of `ConfigApplier::updateRibAndFib`,
each restricted to this VRF: to-CPU statics, drop statics, then statics
with next hops. -/
def applyStaticRoutes (cfg : ConfigApplierInput) (rib : Rib) : Rib :=
  let r2 := addRoutesFold (fun s => s.network) stdStaticRoute (fun _ => createToCpu)
    (cfg.staticCpuRoutes.filter (fun s => decide (s.routerID = cfg.vrf))) rib
  let r3 := addRoutesFold (fun s => s.network) stdStaticRoute (fun _ => createDrop)
    (cfg.staticDropRoutes.filter (fun s => decide (s.routerID = cfg.vrf))) r2
  addRoutesFold (fun s => s.network) stdStaticRoute fromStaticRoute
    (cfg.staticRoutes.filter (fun s => decide (s.routerID = cfg.vrf))) r3

/-- The RIB candidate-state effect of `ConfigApplier::updateRibAndFib`:
purge and re-add the STATIC_ROUTE client, purge and re-add the
INTERFACE_ROUTE client, then seed the link-local routes. -/
def updateRibAndFib (cfg : ConfigApplierInput) (rib : Rib) : Rib :=
  let r1 := removeAllRoutesForClient stdStaticRoute rib
  let r4 := applyStaticRoutes cfg r1
  let r5 := removeAllRoutesForClient stdInterfaceRoute r4
  let r6 := addInterfaceRoutes cfg.directlyConnected r5
  addLinkLocalRoutes r6

/-- The STATIC_ROUTE candidates a config induces, from nothing. -/
def staticRoutesOf (cfg : ConfigApplierInput) : Rib :=
  applyStaticRoutes cfg []

/-- The INTERFACE_ROUTE candidates a config induces, from nothing. -/
def interfaceRoutesOf (cfg : ConfigApplierInput) : Rib :=
  addInterfaceRoutes cfg.directlyConnected []

/-! ### Broadcom multipath next hops (`BcmMultiPathNextHop`, `BcmRoute::program`) -/

/-- A programmed per-next-hop egress: its direct egress id and its weight. -/
structure BcmNextHopRec where
  egressId : Nat
  weight : Nat
deriving DecidableEq

/-- The weight-expanded ECMP path multiset built in the
`BcmMultiPathNextHop` constructor: each next hop's egress id inserted
`weight` times. -/
def mpPathsList (fwd : List BcmNextHopRec) : List Nat :=
  fwd.foldl (fun acc nhop => acc ++ List.replicate nhop.weight nhop.egressId) []

/-- A `BcmMultiPathNextHop` table value: its member next hops and whether a
`BcmEcmpEgress` aggregation object was allocated. -/
structure BcmMultiPathNextHopRec where
  nexthops : List BcmNextHopRec
  ecmpEgressCreated : Bool
deriving DecidableEq

/-- The `BcmMultiPathNextHop` constructor: the ECMP egress object exists
only when the expanded path multiset has more than one element. -/
def mkBcmMultiPathNextHop (fwd : List BcmNextHopRec) : BcmMultiPathNextHopRec :=
  ⟨fwd, decide ((mpPathsList fwd).length > 1)⟩

/-- `BcmMultiPathNextHop::getEgressId`: the ECMP egress id when there is
more than one member next hop, else the single member's direct egress id. -/
def multiPathGetEgressId (ecmpEgressId : Nat) (m : BcmMultiPathNextHopRec) : Nat :=
  if m.nexthops.length > 1 then ecmpEgressId
  else
    match m.nexthops with
    | [] => 0
    | n :: _ => n.egressId

/-- What one `BcmRoute::program` call did: whether it referenced (created or
ref-counted) an entry of the multipath deduplication table, whether that
entry allocated an ECMP egress object, and the egress id the route was
programmed with. -/
structure BcmProgramResult where
  multiPathTableReferenced : Bool
  ecmpEgressCreated : Bool
  egressId : Nat
deriving DecidableEq

/-- `BcmRoute::program`: DROP and TO_CPU routes use the fixed egress ids;
NEXTHOPS routes reference the multipath table and use its egress id. -/
def bcmRouteProgram (dropEgressId toCpuEgressId ecmpEgressId : Nat)
    (action : RouteForwardAction) (nhops : List BcmNextHopRec) : BcmProgramResult :=
  match action with
  | .DROP => ⟨false, false, dropEgressId⟩
  | .TO_CPU => ⟨false, false, toCpuEgressId⟩
  | .NEXTHOPS =>
    let m := mkBcmMultiPathNextHop nhops
    ⟨true, m.ecmpEgressCreated, multiPathGetEgressId ecmpEgressId m⟩

/-! ### Broadcom route table serialization (`BcmRouteTable::toFollyDynamic`) -/

/-- `BcmRouteTable::Key`. -/
structure BcmKeyT where
  network : IpAddr
  mask : Nat
  vrf : Nat
deriving DecidableEq

/-- `folly::IPAddress::operator<`: by family (V4 before V6), then by the
big-endian address value. -/
def addrLtB (a b : IpAddr) : Bool :=
  if a.isV6 = b.isV6 then decide (a.val < b.val) else !a.isV6

/-- `BcmRouteTable::Key::operator<`: vrf, then mask, then network. -/
def keyLtB (k1 k2 : BcmKeyT) : Bool :=
  if k1.vrf < k2.vrf then true
  else if k2.vrf < k1.vrf then false
  else if k1.mask < k2.mask then true
  else if k2.mask < k1.mask then false
  else addrLtB k1.network k2.network

/-- Modelled from the spec: the serialization order the spec asserts,
"(address family, network address, mask length)". -/
def specKeyLtB (k1 k2 : BcmKeyT) : Bool :=
  if k1.network.isV6 ≠ k2.network.isV6 then !k1.network.isV6
  else if k1.network.val ≠ k2.network.val then decide (k1.network.val < k2.network.val)
  else decide (k1.mask < k2.mask)

/-- A programmed route held by `BcmRouteTable`: its key, its forward info
and the egress id it was programmed with. -/
structure BcmRouteRec where
  key : BcmKeyT
  fwd : RouteNextHopEntry
  egressId : Nat
deriving DecidableEq

/-- Ordered insertion into the `std::map` keyed by `BcmRouteTable::Key`
(emplace semantics: a route whose key is already present is left alone). -/
def fibInsert (x : BcmRouteRec) : List BcmRouteRec → List BcmRouteRec
  | [] => [x]
  | y :: ys =>
    if keyLtB x.key y.key then x :: y :: ys
    else if keyLtB y.key x.key then y :: fibInsert x ys
    else y :: ys

/-- The `BcmRouteTable` contents after adding each route in turn. -/
def fibFromList (routes : List BcmRouteRec) : List BcmRouteRec :=
  routes.foldl (fun l r => fibInsert r l) []

/-- Adjacent-pair sortedness of a list under a strict Bool order. -/
def sortedBy {α : Type} (lt : α → α → Bool) : List α → Bool
  | [] => true
  | [_] => true
  | x :: y :: rest => lt x y && sortedBy lt (y :: rest)

/-- The keys of a `BcmRouteTable`, in iteration order. -/
def fibKeys (fib : List BcmRouteRec) : List BcmKeyT :=
  fib.map BcmRouteRec.key

/-- A JSON object key emitted by `BcmRoute::toFollyDynamic` (the `kNetwork`,
`kMaskLen`, `kAction`, `kEcmp`, `kEgressId`, `kEcmpEgressId` constants). -/
inductive JKey where
  | network
  | maskLen
  | action
  | ecmp
  | egressId
  | ecmpEgressId
deriving DecidableEq

/-- A JSON value emitted by the route serializer. -/
inductive JsonVal where
  | str (s : String)
  | num (n : Nat)
  | boolean (b : Bool)
  | addr (a : IpAddr)
deriving DecidableEq

/-- `forwardActionStr`. -/
def forwardActionStr : RouteForwardAction → String
  | .DROP => "Drop"
  | .TO_CPU => "ToCPU"
  | .NEXTHOPS => "Nexthops"

/-- `BcmRoute::toFollyDynamic`: network, maskLen and action always; then
`ecmp = true` with `ecmpEgressId` for a multi-next-hop forward set, else
`ecmp = false` with `egressId`. -/
def bcmRouteToDynamic (network : IpAddr) (maskLen : Nat) (fwd : RouteNextHopEntry)
    (egressId : Nat) : List (JKey × JsonVal) :=
  [(.network, .addr network), (.maskLen, .num maskLen),
   (.action, .str (forwardActionStr fwd.action))] ++
  (if fwd.nexthops.length > 1 then [(.ecmp, .boolean true), (.ecmpEgressId, .num egressId)]
   else [(.ecmp, .boolean false), (.egressId, .num egressId)])

/-- Whether a serialized route object carries a given key. -/
def hasKey (k : JKey) (d : List (JKey × JsonVal)) : Bool :=
  d.any (fun kv => decide (kv.1 = k))

/-- `BcmRouteTable::toFollyDynamic`: the `routes` array, one serialized
object per table entry in map iteration order. -/
def bcmRouteTableToDynamic (fib : List BcmRouteRec) : List (List (JKey × JsonVal)) :=
  fib.map (fun r => bcmRouteToDynamic r.key.network r.key.mask r.fwd r.egressId)

/-! ### MPLS route validation (`addMplsRoutesImpl`, `deleteMplsRoutes`) -/

/-- `mpls_constants::MAX_MPLS_LABEL_` = 2^20 - 1. -/
def maxMplsLabel : Int := 1048575

/-- A thrift `MplsRoute`. -/
structure MplsRouteT where
  topLabel : Int
  adminDistance : Option Nat
  nextHops : List NextHopThrift
deriving DecidableEq

/-- An error thrown by the MPLS update functions: per-label validation, or
the whole-delta `isValidStateUpdate` rejection. -/
inductive MplsErr where
  | invalidLabel (label : Int)
  | invalidUpdate
deriving DecidableEq

/-- `ThriftHandler::addMplsRoutesImpl`'s loop over a label FIB of type `α`
(the label FIB itself lives outside these sources, so programming one label
is an abstract `programLabel` step): each route's top label is validated,
then programmed at the route's admin distance or the client default. -/
def addMplsRoutesImplM {α : Type} (programLabel : α → Int → Nat → List NextHopThrift → α)
    (clientAdmin : Nat) (fib : α) : List MplsRouteT → Except MplsErr α
  | [] => .ok fib
  | r :: rs =>
    if r.topLabel > maxMplsLabel then .error (.invalidLabel r.topLabel)
    else addMplsRoutesImplM programLabel clientAdmin
      (programLabel fib r.topLabel (r.adminDistance.getD clientAdmin) r.nextHops) rs

/-- `ThriftHandler::addMplsRoutes`'s update function: run the impl loop on a
clone of the state, then reject the delta when `isValidStateUpdate` fails. -/
def addMplsRoutesM {α : Type} (programLabel : α → Int → Nat → List NextHopThrift → α)
    (isValidStateUpdate : α → Bool) (clientAdmin : Nat) (routes : List MplsRouteT)
    (st : α) : Except MplsErr α :=
  match addMplsRoutesImplM programLabel clientAdmin st routes with
  | .error e => .error e
  | .ok newState =>
    if isValidStateUpdate newState then .ok newState else .error .invalidUpdate

/-- `ThriftHandler::deleteMplsRoutes`'s update function: validate each label
then unprogram it. -/
def deleteMplsRoutesM {α : Type} (unprogramLabel : α → Int → α) (st : α) :
    List Int → Except MplsErr α
  | [] => .ok st
  | l :: ls =>
    if l > maxMplsLabel then .error (.invalidLabel l)
    else deleteMplsRoutesM unprogramLabel (unprogramLabel st l) ls

/-- `SwSwitch::updateStateBlocking` commit semantics: an exception from the
update function leaves the committed state untouched. -/
def commitExcept {α : Type} (r : Except MplsErr α) (old : α) : α :=
  match r with
  | .ok s => s
  | .error _ => old

/-! ### FIB-sync gating (`ensureFibSynced`, `syncFib`) -/

/-- The handler-visible switch state: the configured flag, the FIB-synced
flag, and the default-VRF RIB candidate state. -/
structure SwState where
  configured : Bool
  fibSynced : Bool
  rib : Rib
deriving DecidableEq

/-- An error thrown by `ensureConfigured` or `ensureFibSynced`. -/
inductive ThriftErr where
  | notConfigured
  | fibNotSynced
deriving DecidableEq

/-- `ThriftHandler::addUnicastRoutes`: `ensureConfigured`, `ensureFibSynced`,
then the non-sync route update. -/
def addUnicastRoutesH (client clientAdmin : Nat) (routes : List UnicastRoute)
    (s : SwState) : Except ThriftErr SwState :=
  if s.configured then
    if s.fibSynced then
      .ok { s with rib := updateUnicastRoutesRib client clientAdmin routes false s.rib }
    else .error .fibNotSynced
  else .error .notConfigured

/-- `ThriftHandler::deleteUnicastRoutes`: `ensureConfigured`,
`ensureFibSynced`, then one `delRoute` per prefix. -/
def deleteUnicastRoutesH (client : Nat) (toDelete : List Cidr) (s : SwState) :
    Except ThriftErr SwState :=
  if s.configured then
    if s.fibSynced then
      .ok { s with rib := delRoutesFold client toDelete s.rib }
    else .error .fibNotSynced
  else .error .notConfigured

/-- `ThriftHandler::syncFib`: `ensureConfigured` only (no FIB-sync gate),
the sync route update, then mark the FIB synced. -/
def syncFibH (client clientAdmin : Nat) (routes : List UnicastRoute) (s : SwState) :
    Except ThriftErr SwState :=
  if s.configured then
    .ok { s with rib := syncFibRib client clientAdmin routes s.rib, fibSynced := true }
  else .error .notConfigured

/-- Commit semantics of a handler call: an exception leaves the switch
state untouched. -/
def commitSw (r : Except ThriftErr SwState) (old : SwState) : SwState :=
  match r with
  | .ok s => s
  | .error _ => old

end Fboss

namespace Fboss

/-! ## Generic list lemmas -/

theorem filter_comm {α : Type} (p q : α → Bool) (l : List α) :
    (l.filter p).filter q = (l.filter q).filter p := by
  induction l with
  | nil => rfl
  | cons x xs ih =>
    cases hp : p x <;> cases hq : q x <;>
      simp [List.filter_cons, hp, hq, ih]

theorem filter_sub {α : Type} (p q : α → Bool) (l : List α)
    (h : ∀ a, q a = true → p a = true) :
    (l.filter p).filter q = l.filter q := by
  induction l with
  | nil => rfl
  | cons x xs ih =>
    cases hq : q x
    · cases hp : p x <;> simp [List.filter_cons, hp, hq, ih]
    · have hp : p x = true := h x hq
      simp [List.filter_cons, hp, hq, ih]

theorem filter_none {α : Type} (p q : α → Bool) (l : List α)
    (h : ∀ a, q a = true → p a = false) :
    (l.filter q).filter p = [] := by
  induction l with
  | nil => rfl
  | cons x xs ih =>
    cases hq : q x
    · simp [List.filter_cons, hq, ih]
    · have hp : p x = false := h x hq
      simp [List.filter_cons, hp, hq, ih]

theorem find?_filter_of_imp {α : Type} (pred q : α → Bool) (l : List α)
    (h : ∀ a, pred a = true → q a = true) :
    (l.filter q).find? pred = l.find? pred := by
  induction l with
  | nil => rfl
  | cons x xs ih =>
    cases hpred : pred x
    · cases hq : q x <;> simp [List.filter_cons, List.find?_cons, hq, hpred, ih]
    · have hq : q x = true := h x hpred
      simp [List.filter_cons, List.find?_cons, hq, hpred]

/-! ## RIB candidate-state lemmas -/

theorem forClient_addRoute_same (rib : Rib) (p : Cidr) (c : Nat) (e : RouteNextHopEntry) :
    forClient c (addRoute rib p c e) = addRoute (forClient c rib) p c e := by
  unfold forClient addRoute
  rw [List.filter_cons_of_pos (by simp)]
  exact congrArg (⟨p, c, e⟩ :: ·) (filter_comm _ _ rib)

theorem forClient_addRoute_ne (rib : Rib) (p : Cidr) (c' : Nat) (e : RouteNextHopEntry)
    (c : Nat) (h : c ≠ c') :
    forClient c (addRoute rib p c' e) = forClient c rib := by
  unfold forClient addRoute
  rw [List.filter_cons_of_neg (by
    simp only [decide_eq_true_eq]
    exact Ne.symm h)]
  exact filter_sub _ _ rib (fun a ha => by
    simp only [decide_eq_true_eq] at ha ⊢
    intro hcon
    exact h (ha.symm.trans hcon.2))

theorem forClient_removeAll_self (c : Nat) (rib : Rib) :
    forClient c (removeAllRoutesForClient c rib) = [] := by
  unfold forClient removeAllRoutesForClient
  exact filter_none _ _ rib (fun a ha => by
    simp only [decide_eq_true_eq] at ha
    exact decide_eq_false (fun hcon => ha hcon))

theorem forClient_removeAll_ne (c c' : Nat) (rib : Rib) (h : c ≠ c') :
    forClient c (removeAllRoutesForClient c' rib) = forClient c rib := by
  unfold forClient removeAllRoutesForClient
  exact filter_sub _ _ rib (fun a ha => by
    simp only [decide_eq_true_eq] at ha
    exact decide_eq_true (fun hcon => h (ha.symm.trans hcon)))

theorem forClient_addRoutesFold_same {σ : Type} (P : σ → Cidr) (E : σ → RouteNextHopEntry)
    (c0 : Nat) (l : List σ) (rib : Rib) :
    forClient c0 (addRoutesFold P c0 E l rib) = addRoutesFold P c0 E l (forClient c0 rib) := by
  induction l generalizing rib with
  | nil => rfl
  | cons x xs ih =>
    simp only [addRoutesFold, List.foldl_cons] at ih ⊢
    rw [ih, forClient_addRoute_same]

theorem forClient_addRoutesFold_ne {σ : Type} (P : σ → Cidr) (E : σ → RouteNextHopEntry)
    (c0 c : Nat) (l : List σ) (rib : Rib) (h : c ≠ c0) :
    forClient c (addRoutesFold P c0 E l rib) = forClient c rib := by
  induction l generalizing rib with
  | nil => rfl
  | cons x xs ih =>
    simp only [addRoutesFold, List.foldl_cons] at ih ⊢
    rw [ih, forClient_addRoute_ne _ _ _ _ _ h]

theorem lookupRoute_addRoute_same (rib : Rib) (p : Cidr) (c : Nat) (e : RouteNextHopEntry) :
    lookupRoute (addRoute rib p c e) p c = some e := by
  unfold lookupRoute addRoute
  rw [List.find?_cons_of_pos _ (by simp)]
  rfl

theorem lookupRoute_addRoute_ne (rib : Rib) (p p' : Cidr) (c c' : Nat)
    (e : RouteNextHopEntry) (h : ¬(p = p' ∧ c = c')) :
    lookupRoute (addRoute rib p' c' e) p c = lookupRoute rib p c := by
  unfold lookupRoute addRoute
  rw [List.find?_cons_of_neg _ (by
    simp only [decide_eq_true_eq]
    exact fun hc => h ⟨hc.1.symm, hc.2.symm⟩)]
  rw [find?_filter_of_imp _ _ rib (fun a ha => by
    simp only [decide_eq_true_eq] at ha ⊢
    intro hcon
    exact h ⟨ha.1.symm.trans hcon.1, ha.2.symm.trans hcon.2⟩)]

/-- C1: `syncFib(vrf, c, R)` produces the same RIB state as
`update(vrf, c, defaultAdminDistance, toAdd = R, toDelete = [],
resetClient = true)`; it equals removing all of client `c`'s candidates and
then adding `R` in one transaction, and afterwards client `c`'s candidates
are exactly the ones induced by `R`. -/
theorem syncFib_equiv_update_reset (client clientAdmin : Nat)
    (routes : List UnicastRoute) (rib : Rib) :
    syncFibRib client clientAdmin routes rib
      = ribUpdate client clientAdmin routes [] true rib
    ∧ syncFibRib client clientAdmin routes rib
      = addRoutesFold (fun rt => rt.dest) client (routeToEntry clientAdmin) routes
          (removeAllRoutesForClient client rib)
    ∧ forClient client (syncFibRib client clientAdmin routes rib)
      = ribFromRoutes client clientAdmin routes := by
  refine ⟨rfl, rfl, ?_⟩
  show forClient client
      (addRoutesFold (fun rt => rt.dest) client (routeToEntry clientAdmin) routes
        (removeAllRoutesForClient client rib)) = _
  rw [forClient_addRoutesFold_same, forClient_removeAll_self]
  rfl

/-- C5: after every `reconfigure` (per-VRF `ConfigApplier::updateRibAndFib`),
fe80::/10 and 169.254.0.0/16 exist in the RIB, owned by the LINK_LOCAL
client, with action TO_CPU. -/
theorem reconfigure_link_local_routes (cfg : ConfigApplierInput) (rib : Rib) :
    lookupRoute (updateRibAndFib cfg rib) linkLocalV6 stdLinkLocal = some linkLocalEntry
    ∧ lookupRoute (updateRibAndFib cfg rib) linkLocalV4 stdLinkLocal = some linkLocalEntry
    ∧ linkLocalEntry.action = RouteForwardAction.TO_CPU := by
  refine ⟨?_, ?_, rfl⟩
  · show lookupRoute (addLinkLocalRoutes _) _ _ = _
    unfold addLinkLocalRoutes
    rw [lookupRoute_addRoute_ne _ _ _ _ _ _ (by decide), lookupRoute_addRoute_same]
  · show lookupRoute (addLinkLocalRoutes _) _ _ = _
    unfold addLinkLocalRoutes
    rw [lookupRoute_addRoute_same]

/-- C3 counterexample: the claim "the candidates of every other client are
left unchanged" fails for the LINK_LOCAL client: reconfiguring over a state
with no LINK_LOCAL candidates seeds the two link-local routes, so
LINK_LOCAL's candidates change even though it is neither the STATIC_ROUTE
nor the INTERFACE_ROUTE client. -/
theorem reconfigure_preserves_other_clients_cex :
    stdLinkLocal ≠ stdStaticRoute ∧ stdLinkLocal ≠ stdInterfaceRoute ∧
    forClient stdLinkLocal (updateRibAndFib ⟨0, [], [], [], []⟩ ([] : Rib))
      ≠ forClient stdLinkLocal ([] : Rib) := by
  decide

/-- C3 (amended): `reconfigure` over a surviving VRF replaces the
STATIC_ROUTE candidates with exactly the new config's static routes and the
INTERFACE_ROUTE candidates with exactly the new config's interface routes;
candidates of every client other than STATIC_ROUTE, INTERFACE_ROUTE and
LINK_LOCAL are left unchanged (LINK_LOCAL is additionally re-seeded with
the link-local TO_CPU routes). -/
theorem reconfigure_replaces_static_interface (cfg : ConfigApplierInput) (rib : Rib)
    (c : Nat) :
    (c ≠ stdStaticRoute → c ≠ stdInterfaceRoute → c ≠ stdLinkLocal →
      forClient c (updateRibAndFib cfg rib) = forClient c rib)
    ∧ forClient stdStaticRoute (updateRibAndFib cfg rib) = staticRoutesOf cfg
    ∧ forClient stdInterfaceRoute (updateRibAndFib cfg rib) = interfaceRoutesOf cfg := by
  refine ⟨?_, ?_, ?_⟩
  · intro h1 h2 h3
    unfold updateRibAndFib addLinkLocalRoutes addInterfaceRoutes applyStaticRoutes
    rw [forClient_addRoute_ne _ _ _ _ _ h3, forClient_addRoute_ne _ _ _ _ _ h3,
      forClient_addRoutesFold_ne _ _ _ _ _ _ h2, forClient_removeAll_ne _ _ _ h2,
      forClient_addRoutesFold_ne _ _ _ _ _ _ h1, forClient_addRoutesFold_ne _ _ _ _ _ _ h1,
      forClient_addRoutesFold_ne _ _ _ _ _ _ h1, forClient_removeAll_ne _ _ _ h1]
  · unfold updateRibAndFib staticRoutesOf addLinkLocalRoutes addInterfaceRoutes
      applyStaticRoutes
    rw [forClient_addRoute_ne _ _ _ _ _ (by decide), forClient_addRoute_ne _ _ _ _ _ (by decide),
      forClient_addRoutesFold_ne _ _ _ _ _ _ (by decide), forClient_removeAll_ne _ _ _ (by decide),
      forClient_addRoutesFold_same, forClient_addRoutesFold_same, forClient_addRoutesFold_same,
      forClient_removeAll_self]
  · unfold updateRibAndFib interfaceRoutesOf addLinkLocalRoutes addInterfaceRoutes
      applyStaticRoutes
    rw [forClient_addRoute_ne _ _ _ _ _ (by decide), forClient_addRoute_ne _ _ _ _ _ (by decide),
      forClient_addRoutesFold_same, forClient_removeAll_self]

/-- C3 witness: the amended frame condition applied at a concrete BGP-like
client, whose candidate survives an empty reconfigure untouched. -/
theorem reconfigure_replaces_static_interface_witness :
    forClient 42 (updateRibAndFib ⟨0, [], [], [], []⟩
        [⟨⟨⟨false, 5⟩, 32⟩, 42, ⟨RouteForwardAction.DROP, [], 7⟩⟩])
      = forClient 42 [⟨⟨⟨false, 5⟩, 32⟩, 42, ⟨RouteForwardAction.DROP, [], 7⟩⟩] :=
  (reconfigure_replaces_static_interface ⟨0, [], [], [], []⟩
    [⟨⟨⟨false, 5⟩, 32⟩, 42, ⟨RouteForwardAction.DROP, [], 7⟩⟩] 42).1
    (by decide) (by decide) (by decide)

end Fboss

namespace Fboss

theorem toRouteNextHopSet_aux (l acc : List NextHopThrift) (h : acc ≠ []) :
    l.foldl (fun acc nh => if nh ∈ acc then acc else acc ++ [nh]) acc ≠ [] := by
  induction l generalizing acc with
  | nil => exact h
  | cons x xs ih =>
    simp only [List.foldl_cons]
    by_cases hx : x ∈ acc
    · rw [if_pos hx]; exact ih acc h
    · rw [if_neg hx]; exact ih _ (by simp)

theorem toRouteNextHopSet_eq_nil_iff (l : List NextHopThrift) :
    toRouteNextHopSet l = [] ↔ l = [] := by
  constructor
  · intro h
    cases l with
    | nil => rfl
    | cons x xs =>
      refine absurd h ?_
      unfold toRouteNextHopSet
      simp only [List.foldl_cons]
      rw [if_neg (List.not_mem_nil x)]
      exact toRouteNextHopSet_aux xs _ (by simp)
  · intro h; subst h; rfl

/-- C9: a unicast route whose converted next-hop list is empty is not
rejected: it is installed as a DROP (blackhole) candidate under the
submitting client at the route's admin distance (falling back to the
client's default); a route with a nonempty converted next-hop list is
installed with action NEXTHOPS over that list. -/
theorem empty_nexthops_blackhole (client clientAdmin : Nat) (r : UnicastRoute) (rib : Rib) :
    lookupRoute (updateUnicastRoutesRib client clientAdmin [r] false rib) r.dest client
      = some (routeToEntry clientAdmin r)
    ∧ (routeToEntry clientAdmin r).adminDistance = r.adminDistance.getD clientAdmin
    ∧ (toRouteNextHopSet (routeNhts r) = [] ↔ routeNhts r = [])
    ∧ (toRouteNextHopSet (routeNhts r) = [] →
        (routeToEntry clientAdmin r).action = RouteForwardAction.DROP
        ∧ (routeToEntry clientAdmin r).nexthops = [])
    ∧ (toRouteNextHopSet (routeNhts r) ≠ [] →
        (routeToEntry clientAdmin r).action = RouteForwardAction.NEXTHOPS
        ∧ (routeToEntry clientAdmin r).nexthops = toRouteNextHopSet (routeNhts r)) := by
  refine ⟨?_, ?_, toRouteNextHopSet_eq_nil_iff _, ?_, ?_⟩
  · show lookupRoute (addRoute rib r.dest client (routeToEntry clientAdmin r)) r.dest client = _
    exact lookupRoute_addRoute_same _ _ _ _
  · by_cases h : (toRouteNextHopSet (routeNhts r)).isEmpty <;> simp [routeToEntry, h]
  · intro h
    simp [routeToEntry, h]
  · intro h
    have hne : (toRouteNextHopSet (routeNhts r)).isEmpty = false := by
      cases hnl : toRouteNextHopSet (routeNhts r)
      · exact absurd hnl h
      · rfl
    simp [routeToEntry, hne]

/-- C9 witness: a concrete route with no next hops becomes a DROP candidate
at admin distance 5, and one with a next hop becomes a NEXTHOPS candidate. -/
theorem empty_nexthops_blackhole_witness :
    lookupRoute (updateUnicastRoutesRib 10 5 [⟨⟨⟨false, 7⟩, 24⟩, [], [], none⟩] false [])
        ⟨⟨false, 7⟩, 24⟩ 10 = some (routeToEntry 5 ⟨⟨⟨false, 7⟩, 24⟩, [], [], none⟩)
    ∧ (routeToEntry 5 ⟨⟨⟨false, 7⟩, 24⟩, [], [], none⟩).action = RouteForwardAction.DROP
    ∧ (routeToEntry 5 ⟨⟨⟨false, 7⟩, 24⟩, [], [], none⟩).nexthops = [] :=
  ⟨(empty_nexthops_blackhole 10 5 ⟨⟨⟨false, 7⟩, 24⟩, [], [], none⟩ []).1,
   (empty_nexthops_blackhole 10 5 ⟨⟨⟨false, 7⟩, 24⟩, [], [], none⟩ []).2.2.2.1 (by decide)⟩

/-- C10: while the FIB is not yet synced, `addUnicastRoutes` and
`deleteUnicastRoutes` fail with the FIB-not-synced error and leave the
state unchanged; `syncFib` is permitted in that state, succeeds, marks the
FIB synced, and afterwards add and delete calls are no longer rejected. -/
theorem fib_sync_gating (client clientAdmin : Nat) (routes routes2 : List UnicastRoute)
    (toDelete : List Cidr) (s : SwState) (hc : s.configured = true) :
    (s.fibSynced = false →
      addUnicastRoutesH client clientAdmin routes s = .error .fibNotSynced
      ∧ commitSw (addUnicastRoutesH client clientAdmin routes s) s = s
      ∧ deleteUnicastRoutesH client toDelete s = .error .fibNotSynced
      ∧ commitSw (deleteUnicastRoutesH client toDelete s) s = s)
    ∧ ∃ s2, syncFibH client clientAdmin routes s = .ok s2
      ∧ s2.fibSynced = true
      ∧ (∃ s3, addUnicastRoutesH client clientAdmin routes2 s2 = .ok s3)
      ∧ (∃ s4, deleteUnicastRoutesH client toDelete s2 = .ok s4) := by
  constructor
  · intro hf
    simp [addUnicastRoutesH, deleteUnicastRoutesH, commitSw, hc, hf]
  · refine ⟨{ s with rib := syncFibRib client clientAdmin routes s.rib, fibSynced := true },
      ?_, rfl, ?_, ?_⟩
    · simp [syncFibH, hc]
    · simp [addUnicastRoutesH, hc]
    · simp [deleteUnicastRoutesH, hc]

/-- C10 witness: the gate applied at a concrete configured, not-yet-synced
state. -/
theorem fib_sync_gating_witness :
    addUnicastRoutesH 10 5 [] ⟨true, false, []⟩ = .error .fibNotSynced
    ∧ (∃ s2, syncFibH 10 5 [] ⟨true, false, []⟩ = .ok s2 ∧ s2.fibSynced = true) :=
  ⟨((fib_sync_gating 10 5 [] [] [] ⟨true, false, []⟩ rfl).1 rfl).1,
   ((fib_sync_gating 10 5 [] [] [] ⟨true, false, []⟩ rfl).2).elim
     (fun s2 hs2 => ⟨s2, hs2.1, hs2.2.1⟩)⟩

end Fboss

namespace Fboss

theorem mem_emitResolved {l : List RibRouteEntry} {r : UnicastRouteOut} :
    r ∈ emitResolved l ↔ ∃ e ∈ l, e.resolved = true ∧ r = toUnicastRouteOut e := by
  unfold emitResolved
  rw [List.mem_filterMap]
  constructor
  · rintro ⟨e, he, hf⟩
    by_cases hr : e.resolved = true
    · rw [if_pos hr] at hf
      exact ⟨e, he, hr, (Option.some_inj.mp hf).symm⟩
    · rw [if_neg hr] at hf; cases hf
  · rintro ⟨e, he, hr, rfl⟩
    exact ⟨e, he, by rw [if_pos hr]⟩

theorem mem_emitForClient {l : List RibRouteEntry} {e : RibRouteEntry} {c : Nat}
    {ent : RouteNextHopEntry} (he : e ∈ l) (hent : getEntryForClient c e = some ent) :
    clientRouteOut ent e ∈ emitForClient c l := by
  unfold emitForClient
  rw [List.mem_filterMap]
  exact ⟨e, he, by rw [hent]; rfl⟩

/-- C2 counterexample: the exposed forwarding table does not carry the best
action: a resolved DROP route and a resolved TO_CPU route over the same
network (both with empty next-hop sets) produce identical `getRouteTable`
output, so the emitted entries cannot contain their best action — the
thrift `UnicastRoute` has no action field. -/
theorem getRouteTable_action_cex :
    (⟨RouteForwardAction.DROP, [], 10⟩ : RouteNextHopEntry).action
      ≠ (⟨RouteForwardAction.TO_CPU, [], 10⟩ : RouteNextHopEntry).action
    ∧ getRouteTable
        [⟨[⟨⟨⟨false, 1⟩, 24⟩, true, ⟨RouteForwardAction.DROP, [], 10⟩, []⟩], []⟩]
      = getRouteTable
        [⟨[⟨⟨⟨false, 1⟩, 24⟩, true, ⟨RouteForwardAction.TO_CPU, [], 10⟩, []⟩], []⟩] := by
  decide

/-- C2 (amended): the exposed forwarding table (`getRouteTable`) contains
exactly the routes whose state is RESOLVED, each with its network and its
resolved next hops (the emitted thrift `UnicastRoute` carries no action
field, so the best action is not exposed); an UNRESOLVED route is excluded
from it but remains visible through the per-client query (when the client
holds an entry) and through the detail query. -/
theorem getRouteTable_exactly_resolved (tables : List RouteTableT) :
    (∀ r : UnicastRouteOut,
      r ∈ getRouteTable tables ↔
        ∃ e : RibRouteEntry, entryInTables e tables ∧ e.resolved = true
          ∧ r = toUnicastRouteOut e)
    ∧ (∀ (e : RibRouteEntry) (c : Nat) (ent : RouteNextHopEntry),
        entryInTables e tables → e.resolved = false → getEntryForClient c e = some ent →
          clientRouteOut ent e ∈ getRouteTableByClient c tables
          ∧ toRouteDetails e ∈ getRouteTableDetails tables) := by
  constructor
  · intro r
    unfold getRouteTable entryInTables
    simp only [List.mem_flatten, List.mem_map]
    constructor
    · rintro ⟨l, ⟨t, ht, rfl⟩, hr⟩
      rcases List.mem_append.mp hr with h4 | h6
      · obtain ⟨e, he, hres, hre⟩ := mem_emitResolved.mp h4
        exact ⟨e, ⟨t, ht, Or.inl he⟩, hres, hre⟩
      · obtain ⟨e, he, hres, hre⟩ := mem_emitResolved.mp h6
        exact ⟨e, ⟨t, ht, Or.inr he⟩, hres, hre⟩
    · rintro ⟨e, ⟨t, ht, he⟩, hres, rfl⟩
      refine ⟨emitResolved t.v4 ++ emitResolved t.v6, ⟨t, ht, rfl⟩, ?_⟩
      rcases he with h4 | h6
      · exact List.mem_append.mpr (Or.inl (mem_emitResolved.mpr ⟨e, h4, hres, rfl⟩))
      · exact List.mem_append.mpr (Or.inr (mem_emitResolved.mpr ⟨e, h6, hres, rfl⟩))
  · intro e c ent hin hres hent
    obtain ⟨t, ht, he⟩ := hin
    constructor
    · unfold getRouteTableByClient
      simp only [List.mem_flatten, List.mem_map]
      refine ⟨emitForClient c t.v4 ++ emitForClient c t.v6, ⟨t, ht, rfl⟩, ?_⟩
      rcases he with h4 | h6
      · exact List.mem_append.mpr (Or.inl (mem_emitForClient h4 hent))
      · exact List.mem_append.mpr (Or.inr (mem_emitForClient h6 hent))
    · unfold getRouteTableDetails
      simp only [List.mem_flatten, List.mem_map]
      refine ⟨t.v4.map toRouteDetails ++ t.v6.map toRouteDetails, ⟨t, ht, rfl⟩, ?_⟩
      rcases he with h4 | h6
      · exact List.mem_append.mpr (Or.inl (List.mem_map_of_mem _ h4))
      · exact List.mem_append.mpr (Or.inr (List.mem_map_of_mem _ h6))

/-- C2 witness: a concrete unresolved route owned by client 20 is absent
from the forwarding table's characterization domain yet visible through the
per-client and detail queries. -/
theorem getRouteTable_exactly_resolved_witness :
    clientRouteOut ⟨RouteForwardAction.NEXTHOPS, [⟨⟨false, 2⟩, none, 0⟩], 10⟩
        ⟨⟨⟨false, 1⟩, 24⟩, false, ⟨RouteForwardAction.DROP, [], 10⟩,
          [(20, ⟨RouteForwardAction.NEXTHOPS, [⟨⟨false, 2⟩, none, 0⟩], 10⟩)]⟩
      ∈ getRouteTableByClient 20
        [⟨[], [⟨⟨⟨false, 1⟩, 24⟩, false, ⟨RouteForwardAction.DROP, [], 10⟩,
          [(20, ⟨RouteForwardAction.NEXTHOPS, [⟨⟨false, 2⟩, none, 0⟩], 10⟩)]⟩]⟩]
    ∧ toRouteDetails ⟨⟨⟨false, 1⟩, 24⟩, false, ⟨RouteForwardAction.DROP, [], 10⟩,
          [(20, ⟨RouteForwardAction.NEXTHOPS, [⟨⟨false, 2⟩, none, 0⟩], 10⟩)]⟩
      ∈ getRouteTableDetails
        [⟨[], [⟨⟨⟨false, 1⟩, 24⟩, false, ⟨RouteForwardAction.DROP, [], 10⟩,
          [(20, ⟨RouteForwardAction.NEXTHOPS, [⟨⟨false, 2⟩, none, 0⟩], 10⟩)]⟩]⟩] :=
  (getRouteTable_exactly_resolved
      [⟨[], [⟨⟨⟨false, 1⟩, 24⟩, false, ⟨RouteForwardAction.DROP, [], 10⟩,
        [(20, ⟨RouteForwardAction.NEXTHOPS, [⟨⟨false, 2⟩, none, 0⟩], 10⟩)]⟩]⟩]).2
    ⟨⟨⟨false, 1⟩, 24⟩, false, ⟨RouteForwardAction.DROP, [], 10⟩,
      [(20, ⟨RouteForwardAction.NEXTHOPS, [⟨⟨false, 2⟩, none, 0⟩], 10⟩)]⟩ 20
    ⟨RouteForwardAction.NEXTHOPS, [⟨⟨false, 2⟩, none, 0⟩], 10⟩
    ⟨_, List.mem_singleton.mpr rfl, Or.inr (List.mem_singleton.mpr rfl)⟩ rfl rfl

end Fboss

namespace Fboss

/-- C4 counterexample: the claim "a deduplication table entry is created
only for groups of size strictly greater than 1" fails: programming a
NEXTHOPS route over a single next hop still references (creates or
ref-counts) a multipath deduplication table entry for that group of size 1. -/
theorem multipath_table_only_gt1_cex :
    (bcmRouteProgram 100 101 102 RouteForwardAction.NEXTHOPS
        [⟨5, 1⟩]).multiPathTableReferenced = true
    ∧ ¬ ([(⟨5, 1⟩ : BcmNextHopRec)].length > 1) := by
  decide

/-- C4 (amended): programming a NEXTHOPS route references a multipath
deduplication table entry for every nonempty group, regardless of size; the
ECMP egress aggregation object is created exactly when the weight-expanded
path multiset has more than one element; and for a group with a single next
hop the route's egress is that next hop's direct per-entry egress
identifier. -/
theorem multipath_ecmp_egress_iff_paths_gt1 (dropId toCpuId ecmpId : Nat)
    (nhops : List BcmNextHopRec) (h : nhops ≠ []) :
    (bcmRouteProgram dropId toCpuId ecmpId RouteForwardAction.NEXTHOPS
        nhops).multiPathTableReferenced = true
    ∧ ((bcmRouteProgram dropId toCpuId ecmpId RouteForwardAction.NEXTHOPS
        nhops).ecmpEgressCreated = true ↔ (mpPathsList nhops).length > 1)
    ∧ (∀ nh, nhops = [nh] →
        (bcmRouteProgram dropId toCpuId ecmpId RouteForwardAction.NEXTHOPS
          nhops).egressId = nh.egressId) := by
  refine ⟨rfl, ?_, ?_⟩
  · simp [bcmRouteProgram, mkBcmMultiPathNextHop]
  · rintro nh rfl
    simp [bcmRouteProgram, mkBcmMultiPathNextHop, multiPathGetEgressId]

/-- C4 witness: the amended statement applied to a single next hop of
weight 1: the table entry is referenced, no ECMP egress is created, and the
egress is the next hop's own. -/
theorem multipath_ecmp_egress_witness :
    (bcmRouteProgram 100 101 102 RouteForwardAction.NEXTHOPS
        [⟨5, 1⟩]).multiPathTableReferenced = true
    ∧ (bcmRouteProgram 100 101 102 RouteForwardAction.NEXTHOPS
        [⟨5, 1⟩]).egressId = (⟨5, 1⟩ : BcmNextHopRec).egressId :=
  ⟨(multipath_ecmp_egress_iff_paths_gt1 100 101 102 [⟨5, 1⟩] (by decide)).1,
   (multipath_ecmp_egress_iff_paths_gt1 100 101 102 [⟨5, 1⟩] (by decide)).2.2 ⟨5, 1⟩ rfl⟩

/-- C7: every serialized route object carries network, maskLen and action;
it carries `ecmp = true` together with the `ecmpEgressId` key (and no
`egressId` key) exactly when the forwarding next-hop set has more than one
next hop, and otherwise `ecmp = false` together with the `egressId` key
(and no `ecmpEgressId` key). -/
theorem bcm_route_json_fields (network : IpAddr) (maskLen : Nat)
    (fwd : RouteNextHopEntry) (egressId : Nat) :
    (JKey.network, JsonVal.addr network) ∈ bcmRouteToDynamic network maskLen fwd egressId
    ∧ (JKey.maskLen, JsonVal.num maskLen) ∈ bcmRouteToDynamic network maskLen fwd egressId
    ∧ (JKey.action, JsonVal.str (forwardActionStr fwd.action))
        ∈ bcmRouteToDynamic network maskLen fwd egressId
    ∧ (fwd.nexthops.length > 1 →
        (JKey.ecmp, JsonVal.boolean true) ∈ bcmRouteToDynamic network maskLen fwd egressId
        ∧ (JKey.ecmpEgressId, JsonVal.num egressId)
            ∈ bcmRouteToDynamic network maskLen fwd egressId
        ∧ hasKey JKey.egressId (bcmRouteToDynamic network maskLen fwd egressId) = false)
    ∧ (¬ fwd.nexthops.length > 1 →
        (JKey.ecmp, JsonVal.boolean false) ∈ bcmRouteToDynamic network maskLen fwd egressId
        ∧ (JKey.egressId, JsonVal.num egressId)
            ∈ bcmRouteToDynamic network maskLen fwd egressId
        ∧ hasKey JKey.ecmpEgressId (bcmRouteToDynamic network maskLen fwd egressId) = false) := by
  by_cases h : fwd.nexthops.length > 1
  · refine ⟨?_, ?_, ?_, fun _ => ⟨?_, ?_, ?_⟩, fun hc => absurd h hc⟩ <;>
      simp [bcmRouteToDynamic, hasKey, h]
  · refine ⟨?_, ?_, ?_, fun hc => absurd hc h, fun _ => ⟨?_, ?_, ?_⟩⟩ <;>
      simp [bcmRouteToDynamic, hasKey, h]

/-- C7 witness: the field characterization applied to a concrete
single-next-hop route: ecmp is false and the `egressId` key is present. -/
theorem bcm_route_json_fields_witness :
    (JKey.ecmp, JsonVal.boolean false)
      ∈ bcmRouteToDynamic ⟨false, 7⟩ 24
          ⟨RouteForwardAction.NEXTHOPS, [⟨⟨false, 9⟩, none, 0⟩], 1⟩ 55
    ∧ (JKey.egressId, JsonVal.num 55)
      ∈ bcmRouteToDynamic ⟨false, 7⟩ 24
          ⟨RouteForwardAction.NEXTHOPS, [⟨⟨false, 9⟩, none, 0⟩], 1⟩ 55 :=
  ⟨((bcm_route_json_fields ⟨false, 7⟩ 24
      ⟨RouteForwardAction.NEXTHOPS, [⟨⟨false, 9⟩, none, 0⟩], 1⟩ 55).2.2.2.2 (by decide)).1,
   ((bcm_route_json_fields ⟨false, 7⟩ 24
      ⟨RouteForwardAction.NEXTHOPS, [⟨⟨false, 9⟩, none, 0⟩], 1⟩ 55).2.2.2.2 (by decide)).2.1⟩

end Fboss

namespace Fboss

theorem addMplsRoutesImplM_invalid {α : Type} (pl : α → Int → Nat → List NextHopThrift → α)
    (admin : Nat) (routes : List MplsRouteT) (st : α)
    (h : ∃ r ∈ routes, r.topLabel > maxMplsLabel) :
    ∃ l, l > maxMplsLabel
      ∧ addMplsRoutesImplM pl admin st routes = .error (.invalidLabel l) := by
  induction routes generalizing st with
  | nil =>
    obtain ⟨r, hr, _⟩ := h
    cases hr
  | cons r rs ih =>
    by_cases hr : r.topLabel > maxMplsLabel
    · exact ⟨r.topLabel, hr, by simp [addMplsRoutesImplM, hr]⟩
    · obtain ⟨r', hr', hl⟩ := h
      rcases List.mem_cons.mp hr' with rfl | hr'
      · exact absurd hl hr
      · obtain ⟨l, hl1, hl2⟩ :=
          ih (pl st r.topLabel (r.adminDistance.getD admin) r.nextHops) ⟨r', hr', hl⟩
        exact ⟨l, hl1, by simp [addMplsRoutesImplM, hr, hl2]⟩

theorem addMplsRoutesImplM_valid {α : Type} (pl : α → Int → Nat → List NextHopThrift → α)
    (admin : Nat) (routes : List MplsRouteT) (st : α)
    (h : ∀ r ∈ routes, ¬ r.topLabel > maxMplsLabel) :
    ∃ s, addMplsRoutesImplM pl admin st routes = .ok s := by
  induction routes generalizing st with
  | nil => exact ⟨st, rfl⟩
  | cons r rs ih =>
    have hr := h r (List.mem_cons_self r rs)
    obtain ⟨s, hs⟩ := ih (pl st r.topLabel (r.adminDistance.getD admin) r.nextHops)
      (fun r' hr' => h r' (List.mem_cons_of_mem _ hr'))
    exact ⟨s, by simp [addMplsRoutesImplM, hr, hs]⟩

theorem deleteMplsRoutesM_invalid {α : Type} (ul : α → Int → α) (labels : List Int)
    (st : α) (h : ∃ l ∈ labels, l > maxMplsLabel) :
    ∃ l, l > maxMplsLabel ∧ deleteMplsRoutesM ul st labels = .error (.invalidLabel l) := by
  induction labels generalizing st with
  | nil =>
    obtain ⟨l, hl, _⟩ := h
    cases hl
  | cons l ls ih =>
    by_cases hl : l > maxMplsLabel
    · exact ⟨l, hl, by simp [deleteMplsRoutesM, hl]⟩
    · obtain ⟨l', hl', hgt⟩ := h
      rcases List.mem_cons.mp hl' with rfl | hl'
      · exact absurd hgt hl
      · obtain ⟨l0, h1, h2⟩ := ih (ul st l) ⟨l', hl', hgt⟩
        exact ⟨l0, h1, by simp [deleteMplsRoutesM, hl, h2]⟩

theorem deleteMplsRoutesM_valid {α : Type} (ul : α → Int → α) (labels : List Int)
    (st : α) (h : ∀ l ∈ labels, ¬ l > maxMplsLabel) :
    ∃ s, deleteMplsRoutesM ul st labels = .ok s := by
  induction labels generalizing st with
  | nil => exact ⟨st, rfl⟩
  | cons l ls ih =>
    have hl := h l (List.mem_cons_self l ls)
    obtain ⟨s, hs⟩ := ih (ul st l) (fun l' hl' => h l' (List.mem_cons_of_mem _ hl'))
    exact ⟨s, by simp [deleteMplsRoutesM, hl, hs]⟩

/-- C8: an MPLS route add or delete whose request carries any top label
strictly greater than 1,048,575 raises the invalid-label error and commits
no change (the update function throws before a new state is returned, so
the committed state is the old one); a request whose labels are all within
range never raises that error. -/
theorem mpls_label_validation {α : Type} (pl : α → Int → Nat → List NextHopThrift → α)
    (isValid : α → Bool) (ul : α → Int → α) (admin : Nat)
    (routes : List MplsRouteT) (labels : List Int) (st : α) :
    ((∃ r ∈ routes, r.topLabel > 1048575) →
      (∃ l, l > 1048575 ∧ addMplsRoutesM pl isValid admin routes st = .error (.invalidLabel l))
      ∧ commitExcept (addMplsRoutesM pl isValid admin routes st) st = st)
    ∧ ((∀ r ∈ routes, r.topLabel ≤ 1048575) →
      ∀ l, addMplsRoutesM pl isValid admin routes st ≠ .error (.invalidLabel l))
    ∧ ((∃ l ∈ labels, l > 1048575) →
      (∃ l, l > 1048575 ∧ deleteMplsRoutesM ul st labels = .error (.invalidLabel l))
      ∧ commitExcept (deleteMplsRoutesM ul st labels) st = st)
    ∧ ((∀ l ∈ labels, l ≤ 1048575) →
      ∀ l, deleteMplsRoutesM ul st labels ≠ .error (.invalidLabel l)) := by
  refine ⟨?_, ?_, ?_, ?_⟩
  · intro h
    obtain ⟨l, hl, heq⟩ := addMplsRoutesImplM_invalid pl admin routes st h
    have heq2 : addMplsRoutesM pl isValid admin routes st = .error (.invalidLabel l) := by
      simp [addMplsRoutesM, heq]
    exact ⟨⟨l, hl, heq2⟩, by simp [commitExcept, heq2]⟩
  · intro h l heq
    obtain ⟨s, hs⟩ :=
      addMplsRoutesImplM_valid pl admin routes st (fun r hr => not_lt.mpr (h r hr))
    rw [addMplsRoutesM, hs] at heq
    by_cases hv : isValid s = true
    · simp [hv] at heq
    · simp [hv] at heq
  · intro h
    obtain ⟨l, hl, heq⟩ := deleteMplsRoutesM_invalid ul labels st h
    exact ⟨⟨l, hl, heq⟩, by simp [commitExcept, heq]⟩
  · intro h l heq
    obtain ⟨s, hs⟩ := deleteMplsRoutesM_valid ul labels st (fun l' hl' => not_lt.mpr (h l' hl'))
    rw [hs] at heq
    cases heq

/-- C8 witness: a concrete over-range label (2,000,000) makes the add fail
with the invalid-label error and leaves the committed state (a bare `Nat`
label FIB model) unchanged; an in-range request raises no such error. -/
theorem mpls_label_validation_witness :
    ((∃ l, l > 1048575
        ∧ addMplsRoutesM (fun s _ _ _ => s + 1) (fun _ => true) 10
            [⟨2000000, none, []⟩] 0 = .error (.invalidLabel l))
      ∧ commitExcept (addMplsRoutesM (fun s _ _ _ => s + 1) (fun _ => true) 10
            [⟨2000000, none, []⟩] 0) 0 = 0)
    ∧ ∀ l, addMplsRoutesM (fun s _ _ _ => s + 1) (fun _ => true) 10
        [⟨17, none, []⟩] 0 ≠ .error (.invalidLabel l) :=
  ⟨(mpls_label_validation (fun s _ _ _ => s + 1) (fun _ => true) (fun s _ => s) 10
      [⟨2000000, none, []⟩] [] 0).1 ⟨⟨2000000, none, []⟩, List.mem_singleton.mpr rfl, by decide⟩,
   (mpls_label_validation (fun s _ _ _ => s + 1) (fun _ => true) (fun s _ => s) 10
      [⟨17, none, []⟩] [] 0).2.1
     (fun r hr => by rcases List.mem_singleton.mp hr with rfl; decide)⟩

end Fboss

namespace Fboss

theorem addrLtB_asymm {a b : IpAddr} (h : addrLtB a b = true) : addrLtB b a = false := by
  unfold addrLtB at h ⊢
  by_cases hv : a.isV6 = b.isV6
  · rw [if_pos hv] at h
    rw [if_pos hv.symm]
    simp only [decide_eq_true_eq] at h
    simp only [decide_eq_false_iff_not]
    omega
  · rw [if_neg hv] at h
    rw [if_neg (fun hh => hv hh.symm)]
    cases hA : a.isV6 <;> cases hB : b.isV6 <;> simp_all

theorem addrLtB_trans {a b c : IpAddr} (h1 : addrLtB a b = true)
    (h2 : addrLtB b c = true) : addrLtB a c = true := by
  unfold addrLtB at h1 h2 ⊢
  by_cases hab : a.isV6 = b.isV6 <;> by_cases hbc : b.isV6 = c.isV6
  · rw [if_pos hab] at h1
    rw [if_pos hbc] at h2
    rw [if_pos (hab.trans hbc)]
    simp only [decide_eq_true_eq] at h1 h2 ⊢
    omega
  · rw [if_neg hbc] at h2
    rw [if_neg (fun hh => hbc (hab.symm.trans hh))]
    rw [hab]
    exact h2
  · rw [if_neg hab] at h1
    rw [if_neg (fun hh => hab (hh.trans hbc.symm))]
    exact h1
  · rw [if_neg hab] at h1
    rw [if_neg hbc] at h2
    cases hA : a.isV6 <;> cases hB : b.isV6 <;> simp_all

theorem addrLtB_total {a b : IpAddr} (h : a ≠ b) :
    addrLtB a b = true ∨ addrLtB b a = true := by
  unfold addrLtB
  by_cases hv : a.isV6 = b.isV6
  · rw [if_pos hv, if_pos hv.symm]
    simp only [decide_eq_true_eq]
    have hne : a.val ≠ b.val := by
      intro he
      exact h (by cases a; cases b; simp_all)
    omega
  · rw [if_neg hv, if_neg (fun hh => hv hh.symm)]
    cases hA : a.isV6 <;> cases hB : b.isV6 <;> simp_all

theorem keyLtB_asymm {k1 k2 : BcmKeyT} (h : keyLtB k1 k2 = true) :
    keyLtB k2 k1 = false := by
  unfold keyLtB at h ⊢
  by_cases h1 : k1.vrf < k2.vrf
  · rw [if_neg (by omega), if_pos (by omega)]
  · rw [if_neg h1] at h
    by_cases h2 : k2.vrf < k1.vrf
    · rw [if_pos h2] at h
      cases h
    · rw [if_neg h2] at h
      rw [if_neg h2, if_neg h1]
      by_cases h3 : k1.mask < k2.mask
      · rw [if_neg (by omega), if_pos (by omega)]
      · rw [if_neg h3] at h
        by_cases h4 : k2.mask < k1.mask
        · rw [if_pos h4] at h
          cases h
        · rw [if_neg h4] at h
          rw [if_neg h4, if_neg h3]
          exact addrLtB_asymm h

theorem keyLtB_trans {k1 k2 k3 : BcmKeyT} (h1 : keyLtB k1 k2 = true)
    (h2 : keyLtB k2 k3 = true) : keyLtB k1 k3 = true := by
  unfold keyLtB at h1 h2 ⊢
  by_cases a1 : k1.vrf < k2.vrf <;> by_cases a2 : k2.vrf < k3.vrf
  · rw [if_pos (by omega)]
  · rw [if_neg a2] at h2
    by_cases a3 : k3.vrf < k2.vrf
    · rw [if_pos a3] at h2
      cases h2
    · rw [if_pos (by omega)]
  · rw [if_neg a1] at h1
    by_cases a3 : k2.vrf < k1.vrf
    · rw [if_pos a3] at h1
      cases h1
    · rw [if_pos (by omega)]
  · rw [if_neg a1] at h1
    rw [if_neg a2] at h2
    by_cases a3 : k2.vrf < k1.vrf
    · rw [if_pos a3] at h1
      cases h1
    · by_cases a4 : k3.vrf < k2.vrf
      · rw [if_pos a4] at h2
        cases h2
      · rw [if_neg a3] at h1
        rw [if_neg a4] at h2
        rw [if_neg (by omega), if_neg (by omega)]
        by_cases b1 : k1.mask < k2.mask <;> by_cases b2 : k2.mask < k3.mask
        · rw [if_pos (by omega)]
        · rw [if_neg b2] at h2
          by_cases b3 : k3.mask < k2.mask
          · rw [if_pos b3] at h2
            cases h2
          · rw [if_pos (by omega)]
        · rw [if_neg b1] at h1
          by_cases b3 : k2.mask < k1.mask
          · rw [if_pos b3] at h1
            cases h1
          · rw [if_pos (by omega)]
        · rw [if_neg b1] at h1
          rw [if_neg b2] at h2
          by_cases b3 : k2.mask < k1.mask
          · rw [if_pos b3] at h1
            cases h1
          · by_cases b4 : k3.mask < k2.mask
            · rw [if_pos b4] at h2
              cases h2
            · rw [if_neg b3] at h1
              rw [if_neg b4] at h2
              rw [if_neg (by omega), if_neg (by omega)]
              exact addrLtB_trans h1 h2

theorem keyLtB_total {k1 k2 : BcmKeyT} (h : k1 ≠ k2) :
    keyLtB k1 k2 = true ∨ keyLtB k2 k1 = true := by
  unfold keyLtB
  by_cases a1 : k1.vrf < k2.vrf
  · exact Or.inl (by rw [if_pos a1])
  · by_cases a2 : k2.vrf < k1.vrf
    · exact Or.inr (by rw [if_pos a2])
    · rw [if_neg a1, if_neg a2, if_neg a2, if_neg a1]
      by_cases b1 : k1.mask < k2.mask
      · exact Or.inl (by rw [if_pos b1])
      · by_cases b2 : k2.mask < k1.mask
        · exact Or.inr (by rw [if_pos b2])
        · rw [if_neg b1, if_neg b2, if_neg b2, if_neg b1]
          refine addrLtB_total (fun he => h ?_)
          cases k1
          cases k2
          simp_all
          omega

theorem mem_fibInsert {z x : BcmRouteRec} {l : List BcmRouteRec}
    (h : z ∈ fibInsert x l) : z = x ∨ z ∈ l := by
  induction l with
  | nil => simpa [fibInsert] using h
  | cons y ys ih =>
    unfold fibInsert at h
    split_ifs at h
    · rcases List.mem_cons.mp h with rfl | hz
      · exact Or.inl rfl
      · exact Or.inr hz
    · rcases List.mem_cons.mp h with rfl | hz
      · exact Or.inr (List.mem_cons_self _ _)
      · rcases ih hz with hz | hz
        · exact Or.inl hz
        · exact Or.inr (List.mem_cons_of_mem _ hz)
    · exact Or.inr h

theorem fibInsert_pairwise {x : BcmRouteRec} {l : List BcmRouteRec}
    (h : List.Pairwise (fun a b => keyLtB a.key b.key = true) l) :
    List.Pairwise (fun a b => keyLtB a.key b.key = true) (fibInsert x l) := by
  induction l with
  | nil => simp [fibInsert]
  | cons y ys ih =>
    rw [List.pairwise_cons] at h
    obtain ⟨hy, hys⟩ := h
    unfold fibInsert
    split_ifs with h1 h2
    · rw [List.pairwise_cons]
      refine ⟨?_, List.pairwise_cons.mpr ⟨hy, hys⟩⟩
      intro z hz
      rcases List.mem_cons.mp hz with rfl | hz
      · exact h1
      · exact keyLtB_trans h1 (hy z hz)
    · rw [List.pairwise_cons]
      refine ⟨?_, ih hys⟩
      intro z hz
      rcases mem_fibInsert hz with rfl | hz
      · exact h2
      · exact hy z hz
    · exact List.pairwise_cons.mpr ⟨hy, hys⟩

theorem fibInsert_perm {x : BcmRouteRec} {l : List BcmRouteRec}
    (hx : ∀ y ∈ l, x.key ≠ y.key) :
    List.Perm (fibInsert x l) (x :: l) := by
  induction l with
  | nil => exact List.Perm.refl _
  | cons y ys ih =>
    unfold fibInsert
    split_ifs with h1 h2
    · exact List.Perm.refl _
    · exact (List.Perm.cons y (ih (fun z hz => hx z (List.mem_cons_of_mem _ hz)))).trans
        (List.Perm.swap x y ys)
    · have hne : x.key ≠ y.key := hx y (List.mem_cons_self y ys)
      rcases keyLtB_total hne with hlt | hlt
      · exact absurd hlt h1
      · exact absurd hlt h2

end Fboss

namespace Fboss

theorem foldl_fibInsert_pairwise (l acc : List BcmRouteRec)
    (h : List.Pairwise (fun a b => keyLtB a.key b.key = true) acc) :
    List.Pairwise (fun a b => keyLtB a.key b.key = true)
      (l.foldl (fun t r => fibInsert r t) acc) := by
  induction l generalizing acc with
  | nil => exact h
  | cons x xs ih => exact ih _ (fibInsert_pairwise h)

theorem fibFromList_pairwise (l : List BcmRouteRec) :
    List.Pairwise (fun a b => keyLtB a.key b.key = true) (fibFromList l) :=
  foldl_fibInsert_pairwise l [] List.Pairwise.nil

theorem foldl_fibInsert_perm (l : List BcmRouteRec) (acc : List BcmRouteRec)
    (h : List.Pairwise (fun a b => a.key ≠ b.key) (acc ++ l)) :
    List.Perm (l.foldl (fun t r => fibInsert r t) acc) (acc ++ l) := by
  induction l generalizing acc with
  | nil =>
    rw [List.append_nil]
    exact List.Perm.refl _
  | cons x xs ih =>
    have hx : ∀ y ∈ acc, x.key ≠ y.key := by
      rw [List.pairwise_append] at h
      intro y hy
      exact (h.2.2 y hy x (List.mem_cons_self x xs)).symm
    have hperm1 : List.Perm (fibInsert x acc) (x :: acc) := fibInsert_perm hx
    have hpermacc : List.Perm (fibInsert x acc ++ xs) (acc ++ x :: xs) :=
      (hperm1.append_right xs).trans List.perm_middle.symm
    have h' : List.Pairwise (fun a b => a.key ≠ b.key) (fibInsert x acc ++ xs) :=
      (List.Perm.pairwise_iff (fun hxy => Ne.symm hxy) hpermacc).mpr h
    simp only [List.foldl_cons]
    exact (ih (fibInsert x acc) h').trans hpermacc

theorem fibFromList_perm {l : List BcmRouteRec}
    (h : List.Pairwise (fun a b => a.key ≠ b.key) l) :
    List.Perm (fibFromList l) l := by
  have h2 := foldl_fibInsert_perm l [] (by simpa using h)
  simpa [fibFromList] using h2

theorem pairwise_keys_sortedBy {l : List BcmRouteRec}
    (h : List.Pairwise (fun a b => keyLtB a.key b.key = true) l) :
    sortedBy keyLtB (fibKeys l) = true := by
  induction l with
  | nil => rfl
  | cons x xs ih =>
    rw [List.pairwise_cons] at h
    obtain ⟨hx, hxs⟩ := h
    cases xs with
    | nil => rfl
    | cons y ys =>
      show (keyLtB x.key y.key && sortedBy keyLtB (fibKeys (y :: ys))) = true
      rw [hx y (List.mem_cons_self y ys), ih hxs]
      rfl

theorem fib_sorted_perm_eq {l1 l2 : List BcmRouteRec} (hp : List.Perm l1 l2)
    (h1 : List.Pairwise (fun a b => keyLtB a.key b.key = true) l1)
    (h2 : List.Pairwise (fun a b => keyLtB a.key b.key = true) l2) :
    l1 = l2 := by
  have hanti : IsAntisymm BcmRouteRec (fun a b => keyLtB a.key b.key = true) :=
    ⟨fun a b hab hba => absurd hba (by rw [keyLtB_asymm hab]; simp)⟩
  exact @List.eq_of_perm_of_sorted _ _ hanti _ _ hp h1 h2

/-- C6 counterexample: the claim that the serialized route list is sorted
by (address family, network address, mask length) fails: the map is keyed
by (vrf, mask, network), so 10.0.0.0/8 is emitted before 9.0.0.0/16 even
though 9.0.0.0 precedes 10.0.0.0. -/
theorem route_table_json_sort_key_cex :
    fibKeys (fibFromList
        [⟨⟨⟨false, 0x0a000000⟩, 8, 0⟩, ⟨RouteForwardAction.NEXTHOPS, [], 1⟩, 7⟩,
         ⟨⟨⟨false, 0x09000000⟩, 16, 0⟩, ⟨RouteForwardAction.NEXTHOPS, [], 1⟩, 8⟩])
      = [⟨⟨false, 0x0a000000⟩, 8, 0⟩, ⟨⟨false, 0x09000000⟩, 16, 0⟩]
    ∧ sortedBy specKeyLtB (fibKeys (fibFromList
        [⟨⟨⟨false, 0x0a000000⟩, 8, 0⟩, ⟨RouteForwardAction.NEXTHOPS, [], 1⟩, 7⟩,
         ⟨⟨⟨false, 0x09000000⟩, 16, 0⟩, ⟨RouteForwardAction.NEXTHOPS, [], 1⟩, 8⟩]))
      = false := by
  decide

/-- C6 (amended): the serialized route table lists its routes sorted by the
map key (vrf, mask length, network address with IPv4 ordering before
IPv6); for a route set with pairwise-distinct keys the serialization is
independent of insertion order, so two serializations of the same route
set are identical and diffable. -/
theorem route_table_json_sorted_deterministic (routes routes2 : List BcmRouteRec) :
    sortedBy keyLtB (fibKeys (fibFromList routes)) = true
    ∧ (List.Pairwise (fun a b => a.key ≠ b.key) routes → List.Perm routes routes2 →
        bcmRouteTableToDynamic (fibFromList routes)
          = bcmRouteTableToDynamic (fibFromList routes2)) := by
  refine ⟨pairwise_keys_sortedBy (fibFromList_pairwise routes), ?_⟩
  intro hnd hp
  have hnd2 : List.Pairwise (fun a b => a.key ≠ b.key) routes2 :=
    (List.Perm.pairwise_iff (fun hxy => Ne.symm hxy) hp).mp hnd
  have he : fibFromList routes = fibFromList routes2 :=
    fib_sorted_perm_eq
      (((fibFromList_perm hnd).trans hp).trans (fibFromList_perm hnd2).symm)
      (fibFromList_pairwise routes) (fibFromList_pairwise routes2)
  rw [he]

/-- C6 witness: two insertion orders of the same two concrete routes
serialize identically. -/
theorem route_table_json_sorted_witness :
    bcmRouteTableToDynamic (fibFromList
        [⟨⟨⟨false, 0x0a000000⟩, 8, 0⟩, ⟨RouteForwardAction.NEXTHOPS, [], 1⟩, 7⟩,
         ⟨⟨⟨false, 0x09000000⟩, 16, 0⟩, ⟨RouteForwardAction.NEXTHOPS, [], 1⟩, 8⟩])
      = bcmRouteTableToDynamic (fibFromList
        [⟨⟨⟨false, 0x09000000⟩, 16, 0⟩, ⟨RouteForwardAction.NEXTHOPS, [], 1⟩, 8⟩,
         ⟨⟨⟨false, 0x0a000000⟩, 8, 0⟩, ⟨RouteForwardAction.NEXTHOPS, [], 1⟩, 7⟩]) :=
  (route_table_json_sorted_deterministic
      [⟨⟨⟨false, 0x0a000000⟩, 8, 0⟩, ⟨RouteForwardAction.NEXTHOPS, [], 1⟩, 7⟩,
       ⟨⟨⟨false, 0x09000000⟩, 16, 0⟩, ⟨RouteForwardAction.NEXTHOPS, [], 1⟩, 8⟩]
      [⟨⟨⟨false, 0x09000000⟩, 16, 0⟩, ⟨RouteForwardAction.NEXTHOPS, [], 1⟩, 8⟩,
       ⟨⟨⟨false, 0x0a000000⟩, 8, 0⟩, ⟨RouteForwardAction.NEXTHOPS, [], 1⟩, 7⟩]).2
    (by decide) (List.Perm.swap _ _ [])

end Fboss
